import Mathlib

/-!
Verification development for the AudioDSP repository (STM32H745ZI guitar
effects pedal).  The C sources are shallowly embedded: `size_t` counters
become natural numbers reduced modulo `2 ^ 64`, byte storage becomes a
function `Nat → Nat`, `float32_t` parameter values become rationals (the
claims under study only compare and copy them), and fallible operations
return explicit result codes exactly as the C functions do.
-/

namespace AudioDSP

/-! ## size_t arithmetic (the target is a 64-bit platform model for `size_t`) -/

/-- Modulus of the unsigned `size_t` type. -/
def U64 : Nat := 2 ^ 64

/-- Unsigned subtraction `a - b` on `size_t` values (wraps modulo `2 ^ 64`). -/
def sub_u64 (a b : Nat) : Nat := (a + (U64 - b % U64)) % U64

/-- The `size_t` post-increment `x++` used on `head` and `tail`. -/
def succ_u64 (a : Nat) : Nat := (a + 1) % U64

/-- `n - 1` on `size_t` (wraps to `2 ^ 64 - 1` at `n = 0`). -/
def pred_u64 (n : Nat) : Nat := sub_u64 n 1

/-! ## `memcpy`/`memset` over byte-addressed storage

Storage behind a `uint8_t*` is modelled as a total map from byte address to
byte value.  `memcpy(dst + offset, src, len)` writes the `len` source bytes
at consecutive addresses starting at `offset`; reading `len` bytes from
`offset` yields the list of stored bytes. -/

/-- Write the bytes of `data` at consecutive addresses starting at `offset`. -/
def memcpyWrite : (Nat → Nat) → Nat → List Nat → Nat → Nat
  | buf, _, [] => buf
  | buf, offset, b :: rest =>
      memcpyWrite (fun i => if i = offset then b else buf i) (offset + 1) rest

/-- Read `len` bytes starting at address `offset`. -/
def memcpyRead (buf : Nat → Nat) : Nat → Nat → List Nat
  | _, 0 => []
  | offset, len + 1 => buf offset :: memcpyRead buf (offset + 1) len

/-! ## ringbuffer.c -/

/-- `#define RING_BUFFER_MAX (1)` — maximum number of ring buffers. -/
def RING_BUFFER_MAX : Nat := 1

/-- `#define SUCCESS (0)` -/
def SUCCESS : Int := 0

/-- `#define FAILURE (-1)` -/
def FAILURE : Int := -1

/-- `struct ring_buffer` from ringbuffer.c: element size and capacity in
`size_t`, byte storage behind the `uint8_t* buf` pointer, and the two
free-running `size_t` counters `head` and `tail`. -/
structure ring_buffer where
  element_size : Nat
  max_elements : Nat
  buf : Nat → Nat
  head : Nat
  tail : Nat

/-- `rb_handle_t` from ring_buffer.h.  The `buffer` member is a `void*`;
the model records whether it is `NULL` (its pointee contents are passed to
`ring_buffer_init` separately as a byte map). -/
structure rb_handle_t where
  element_size : Nat
  max_elements : Nat
  buffer_null : Bool

/-- The module state of ringbuffer.c: the `static int index` counter inside
`ring_buffer_init` together with the single slot of the registry
`static struct ring_buffer _rb[RING_BUffER_MAX]` (with `RING_BUFFER_MAX = 1`
the registry has exactly one slot, `_rb[0]`). -/
structure rb_module_state where
  index : Nat
  slot : ring_buffer

/-- The zero-initialised registry slot a C static object starts with. -/
def rb_slot0 : ring_buffer :=
  { element_size := 0, max_elements := 0, buf := fun _ => 0, head := 0, tail := 0 }

/-- `ring_buffer_init(rb_designator_t* rbd, rb_handle_t* attr)`.
Arguments: whether each of the two pointer arguments is `NULL`, the handle
contents `attr`, and the byte contents behind `attr->buffer`.  Returns the
result code, the designator value written through `*rbd` (if any), and the
new module state.  Success requires a free slot (`index < RING_BUFFER_MAX`),
non-`NULL` pointers, a non-`NULL` buffer with positive element size, and the
power-of-two check `((attr->max_elements - 1) & attr->max_elements) == 0`
computed in `size_t` arithmetic; on success the slot is (re)initialised and
`*rbd = index++`. -/
def ring_buffer_init (rbd_null attr_null : Bool) (attr : rb_handle_t)
    (storage : Nat → Nat) (st : rb_module_state) :
    Int × Option Nat × rb_module_state :=
  if st.index < RING_BUFFER_MAX ∧ rbd_null = false ∧ attr_null = false then
    if attr.buffer_null = false ∧ 0 < attr.element_size then
      if pred_u64 attr.max_elements &&& attr.max_elements = 0 then
        (SUCCESS, some st.index,
          { index := st.index + 1,
            slot := { element_size := attr.element_size,
                      max_elements := attr.max_elements,
                      buf := storage, head := 0, tail := 0 } })
      else (FAILURE, none, st)
    else (FAILURE, none, st)
  else (FAILURE, none, st)

/-- `_ring_buffer_full`: returns 1 when `head - tail == max_elements`
(unsigned subtraction), else 0. -/
def _ring_buffer_full (rb : ring_buffer) : Nat :=
  if sub_u64 rb.head rb.tail = rb.max_elements then 1 else 0

/-- `_ring_buffer_empty`: returns 1 when `head - tail == 0`, else 0. -/
def _ring_buffer_empty (rb : ring_buffer) : Nat :=
  if sub_u64 rb.head rb.tail = 0 then 1 else 0

/-- `ring_buffer_count`: returns `head - tail` (unsigned subtraction). -/
def ring_buffer_count (rb : ring_buffer) : Nat :=
  sub_u64 rb.head rb.tail

/-- `ring_buffer_put(rb_designator_t rbd, const void* data)`: when the
designator is valid and the buffer is not full, copies `element_size` bytes
of `data` to byte offset `(head & (max_elements - 1)) * element_size` and
post-increments `head`; otherwise fails and leaves the buffer untouched.
The state argument is the registry slot `_rb[0]` that `rbd` indexes. -/
def ring_buffer_put (rbd : Nat) (data : List Nat) (rb : ring_buffer) :
    Int × ring_buffer :=
  if rbd < RING_BUFFER_MAX ∧ _ring_buffer_full rb = 0 then
    let offset := (rb.head &&& pred_u64 rb.max_elements) * rb.element_size % U64
    (SUCCESS,
      { rb with
        buf := memcpyWrite rb.buf offset (data.take rb.element_size),
        head := succ_u64 rb.head })
  else (FAILURE, rb)

/-- `ring_buffer_get(rb_designator_t rbd, void* data)`: when the designator
is valid and the buffer is not empty, copies `element_size` bytes from byte
offset `(tail & (max_elements - 1)) * element_size` out through `data` and
post-increments `tail`; otherwise fails, writes nothing, and leaves the
buffer untouched. -/
def ring_buffer_get (rbd : Nat) (rb : ring_buffer) :
    Int × Option (List Nat) × ring_buffer :=
  if rbd < RING_BUFFER_MAX ∧ _ring_buffer_empty rb = 0 then
    let offset := (rb.tail &&& pred_u64 rb.max_elements) * rb.element_size % U64
    (SUCCESS, some (memcpyRead rb.buf offset rb.element_size),
      { rb with tail := succ_u64 rb.tail })
  else (FAILURE, none, rb)

/-- `ring_buffer_clear(rb_designator_t rbd)`: zeroes the
`max_elements * element_size` bytes of storage and resets both counters. -/
def ring_buffer_clear (rb : ring_buffer) : ring_buffer :=
  { rb with
    buf := memcpyWrite rb.buf 0
      (List.replicate (rb.max_elements * rb.element_size) 0),
    head := 0, tail := 0 }

/-- Execute a sequence of `put` calls on designator 0, collecting result
codes (used to state the FIFO law of §8 of the spec). -/
def rb_putAll : List (List Nat) → ring_buffer → List Int × ring_buffer
  | [], rb => ([], rb)
  | x :: xs, rb =>
      let r := ring_buffer_put 0 x rb
      let rest := rb_putAll xs r.2
      (r.1 :: rest.1, rest.2)

/-- Execute `n` successive `get` calls on designator 0, collecting the
elements read out (`none` for a failing call). -/
def rb_getAll : Nat → ring_buffer → List (Option (List Nat)) × ring_buffer
  | 0, rb => ([], rb)
  | n + 1, rb =>
      let r := ring_buffer_get 0 rb
      let rest := rb_getAll n r.2.2
      (r.2.1 :: rest.1, rest.2)

/-- One call to `ring_buffer_init` with all of its inputs. -/
structure rb_init_call where
  rbd_null : Bool
  attr_null : Bool
  attr : rb_handle_t
  storage : Nat → Nat

/-- Execute a sequence of `ring_buffer_init` calls against the module
state, collecting the result codes. -/
def rb_initAll : List rb_init_call → rb_module_state → List Int × rb_module_state
  | [], st => ([], st)
  | c :: cs, st =>
      let r := ring_buffer_init c.rbd_null c.attr_null c.attr c.storage st
      let rest := rb_initAll cs r.2.2
      (r.1 :: rest.1, rest.2)

/-! ## fx_lib.c

`float32_t` parameter values are modelled as rationals: the claims under
study only compare, copy, and linearly combine them, and every comparison
bound involved is exact in that model. -/

/-- `static const uint16_t Fs = 48000` — the sample rate. -/
def Fs : Nat := 48000

/-- `#define MAX_DELAY_TIME 500` (fx_lib.h). -/
def MAX_DELAY_TIME : ℚ := 500

/-- `enum fx_designator` from fx_lib.h. -/
def FXNONE : Nat := 0
def FXDELAY : Nat := 1
def FXOVERDRIVE : Nat := 2
def FXFUZZ : Nat := 3
def FXTREMOLO : Nat := 4
def FXRINGMOD : Nat := 5
def FXFILTER : Nat := 6

/-- `#define SAMPLES 128` (defines_and_constants.h). -/
def SAMPLES : Nat := 128

/-- `#define PING_PONG_BUFFER_SIZE (SAMPLES >> 1)` = 64. -/
def PING_PONG_BUFFER_SIZE : Nat := SAMPLES >>> 1

/-- `delay_parameter` enum from fx_lib.h. -/
inductive delay_parameter
  | DELAY
  | FEEDBACK
  | BLEND
deriving DecidableEq

/-- `delay_handle_t` from fx_lib.h.  The `src`, `dst` sample-buffer
pointers are modelled as optional addresses (`none` = `NULL`); `delay_rb`
records whether the handle points at the module-static `_delay_rb`. -/
structure delay_handle_t where
  delay_ms : ℚ
  blend : ℚ
  feedback : ℚ
  is_running : Bool
  level : ℚ
  src : Option Nat
  dst : Option Nat
  delay_rb : Bool
deriving DecidableEq

/-- Module state of the delay section of fx_lib.c: the static designator
`delay_rbd` (initialised to `FXDELAY`), the state of ringbuffer.c that
`ring_buffer_init`/`ring_buffer_clear`/`ring_buffer_put` act on, and a flag
recording that `ring_buffer_clear(FXDELAY)` was invoked with designator
`FXDELAY = 1`, which indexes past the end of the one-slot registry. -/
structure fx_delay_state where
  delay_rbd : Nat
  rb : rb_module_state
  oob_clear : Bool

/-- The module state at reset: `delay_rbd = FXDELAY`, no ring buffer
allocated yet. -/
def fx_delay_state0 : fx_delay_state :=
  { delay_rbd := FXDELAY, rb := { index := 0, slot := rb_slot0 }, oob_clear := false }

/-- The four bytes of the IEEE-754 single-precision value `0.0f`, the
`static float32_t zero` that `delay_init` pre-fills the delay line with. -/
def float32_zero_bytes : List Nat := [0, 0, 0, 0]

/-- The pre-fill loop of `delay_init`: `delay_in_samples` calls of
`ring_buffer_put(FXDELAY, &zero)` (result codes are discarded). -/
def delay_prefill : Nat → ring_buffer → ring_buffer
  | 0, slot => slot
  | n + 1, slot => delay_prefill n (ring_buffer_put FXDELAY float32_zero_bytes slot).2

/-- `delay_init(handle, in_buffer, out_buffer, delay_ms, blend, feedback)`.
Returns 255 on a `NULL` sample buffer; 254 when
`blend <= 0 || blend >= 1 || feedback <= 0 || feedback >= 0.99f || delay_ms > MAX_DELAY_TIME`;
253 when `ring_buffer_init` fails; otherwise commits the parameters into
the handle and pre-fills the delay line with
`(uint16_t)(delay_ms * (Fs / 1000.0f))` zero samples.  (The float literal
`0.99f` rounds to `0.98999995...`; every comparison in the claims under
study lies strictly on one side of both values, so the rational bound
`99/100` decides them identically.) -/
def delay_init (st : fx_delay_state) (handle : delay_handle_t)
    (in_buffer out_buffer : Option Nat) (delay_ms blend feedback : ℚ) :
    Nat × delay_handle_t × fx_delay_state :=
  if in_buffer = none ∨ out_buffer = none then (255, handle, st)
  else if blend ≤ 0 ∨ blend ≥ 1 ∨ feedback ≤ 0 ∨ feedback ≥ 99 / 100 ∨
      delay_ms > MAX_DELAY_TIME then (254, handle, st)
  else
    -- _delay_rb.element_size = sizeof(float32_t); max_elements = ARRAY_SIZE(delay_buffer) = 2^16
    let _delay_rb : rb_handle_t :=
      { element_size := 4, max_elements := 2 ^ 16, buffer_null := false }
    -- if (delay_rbd == FXDELAY) initialise the ring buffer, else clear it
    let step :=
      if st.delay_rbd = FXDELAY then
        let r := ring_buffer_init false false _delay_rb (fun _ => 0) st.rb
        if r.1 ≠ 0 then none  -- int8_t err = ...; if (err) return 253
        else some { st with delay_rbd := (r.2.1).getD st.delay_rbd, rb := r.2.2 }
      else
        -- ring_buffer_clear(FXDELAY): FXDELAY = 1 indexes past _rb[0]
        some { st with oob_clear := true }
    match step with
    | none => (253, handle, st)
    | some st' =>
        let handle' :=
          { handle with
            src := in_buffer, dst := out_buffer, delay_ms := delay_ms,
            blend := blend, feedback := feedback, delay_rb := true }
        -- uint16_t delay_in_samples = (uint16_t)(handle->delay_ms * (Fs / 1000.0f))
        let delay_in_samples := (⌊delay_ms * ((Fs : ℚ) / 1000)⌋).toNat % 2 ^ 16
        let st'' := { st' with rb := { st'.rb with
          slot := delay_prefill delay_in_samples st'.rb.slot } }
        (0, handle', st'')

/-- `delay_update(handle, pm, value)`.  The `DELAY` arm checks only the
upper bound; the `FEEDBACK` arm of the `switch` in the source has no
`break`, so after assigning `feedback` control falls through into the
`BLEND` arm, which re-checks the range and assigns `blend` as well. -/
def delay_update (handle : delay_handle_t) (pm : delay_parameter) (value : ℚ) :
    Nat × delay_handle_t :=
  match pm with
  | .DELAY =>
      if value > MAX_DELAY_TIME then (255, handle)
      else (0, { handle with delay_ms := value })
  | .FEEDBACK =>
      if value < 0 ∨ value > 1 then (255, handle)
      else
        let handle := { handle with feedback := value }
        -- fall-through into the BLEND case
        if value < 0 ∨ value > 1 then (255, handle)
        else (0, { handle with blend := value })
  | .BLEND =>
      if value < 0 ∨ value > 1 then (255, handle)
      else (0, { handle with blend := value })

/-- `modulator_type` enum from fx_lib.h. -/
inductive modulator_type
  | SINE
  | TRIANGLE
  | SQUARE
  | NO_CHANGE
deriving DecidableEq

/-- `ring_mod_handle_t` from fx_lib.h. -/
structure ring_mod_handle_t where
  rate : ℚ
  blend : ℚ
  type : modulator_type
  is_running : Bool
  src : Option Nat
  dst : Option Nat
  time : ℚ
deriving DecidableEq

/-- `ring_mod_init(handle, in_buffer, out_buffer, rate, blend, type)`.
Returns 255 on a `NULL` sample buffer; 254 when
`rate >= 0 || rate <= 1 || blend < 0 || blend > 0.99` (the range check as
written in the source); otherwise commits the parameters. -/
def ring_mod_init (handle : ring_mod_handle_t)
    (in_buffer out_buffer : Option Nat) (rate blend : ℚ)
    (type : modulator_type) : Nat × ring_mod_handle_t :=
  if in_buffer = none ∨ out_buffer = none then (255, handle)
  else if rate ≥ 0 ∨ rate ≤ 1 ∨ blend < 0 ∨ blend > 99 / 100 then (254, handle)
  else
    (0, { handle with
          src := in_buffer, dst := out_buffer, rate := rate,
          blend := blend, type := type, time := 0 })

/-- `fuzz_parameter` enum from fx_lib.h. -/
inductive fuzz_parameter
  | GAIN
  | MIX
deriving DecidableEq

/-- `fuzz_handle_t` from fx_lib.h. -/
structure fuzz_handle_t where
  gain : ℚ
  mix : ℚ
  is_running : Bool
  src : Option Nat
  dst : Option Nat
deriving DecidableEq

/-- The first loop of `run_fuzz` over the samples at `handle->src`: for
each sample compute `q = src[i] * gain / (1 << 24)`; when `q != 0` set
`z[i] = -q/fabs(q) * (1 - expf(-q/fabs(q) * q))` and raise the running
maximum `max_z` when `z[i] > max_z`, else set `z[i] = 0`.  The external
math-library function `expf` is passed in as a parameter; the claim under
study never evaluates it. -/
def fuzz_pass1 (expf : ℚ → ℚ) (gain : ℚ) : List ℚ → ℚ → List ℚ × ℚ
  | [], max_z => ([], max_z)
  | s :: rest, max_z =>
      let q := s * gain / 2 ^ 24
      if q ≠ 0 then
        let zi := -q / |q| * (1 - expf (-q / |q| * q))
        let max_z' := if zi > max_z then zi else max_z
        let r := fuzz_pass1 expf gain rest max_z'
        (zi :: r.1, r.2)
      else
        let r := fuzz_pass1 expf gain rest max_z
        (0 :: r.1, r.2)

/-- `run_fuzz(handle)` on the `PING_PONG_BUFFER_SIZE` samples at
`handle->src`.  After the first loop the second loop computes
`dst[i] = mix * z[i] * (1 << 24) / max_z + (1 - mix) * src[i]` with no
guard on `max_z`; the embedding returns `none` when that division's
divisor is zero (the division by zero the source performs unguarded), and
`some` of the output block otherwise. -/
def run_fuzz (expf : ℚ → ℚ) (handle : fuzz_handle_t) (src : List ℚ) :
    Option (List ℚ) :=
  let block := src.take PING_PONG_BUFFER_SIZE
  let r := fuzz_pass1 expf handle.gain block 0
  let max_z := r.2
  if max_z = 0 then none
  else
    some ((r.1.zip block).map fun p =>
      handle.mix * p.1 * 2 ^ 24 / max_z + (1 - handle.mix) * p.2)

/-! ## main.c — the audio pipeline scheduler

The transfer-notification flag and the control loop of `main` are embedded
as a transition system.  The work the loop performs in each arm (sample
demux, effect dispatch, mux — `rx_samples`; `run_fx`; `tx_samples` — or the
menu poll `display_menu`) is recorded by counting how often each arm
executes; `Error_Handler` is recorded by a flag, since it disables
interrupts and spins forever. -/

/-- `enum callback_state` from main.c (`callback_state` itself is a
`volatile uint8_t`, so the state variable is modelled as a natural
number carrying these values). -/
def NONE : Nat := 0
def HALFCPLT : Nat := 1
def CPLT : Nat := 2

/-- The Cortex-M7 state visible to the scheduler claims: the notification
flag, counters of how many PING halves, PONG halves and menu polls the
control loop has executed, and whether `Error_Handler` has run. -/
structure cm7_state where
  callback_state : Nat
  ping_processed : Nat
  pong_processed : Nat
  menu_polls : Nat
  in_error_handler : Bool
deriving DecidableEq

/-- State at reset: statics are zero-initialised, so `callback_state` is
`NONE` and no work has been performed. -/
def cm7_state0 : cm7_state :=
  { callback_state := NONE, ping_processed := 0, pong_processed := 0,
    menu_polls := 0, in_error_handler := false }

/-- The events that drive the scheduler: the two transfer-complete
notifications delivered by the I2S/DMA hardware, and one iteration of the
`while (1)` control loop in `main`. -/
inductive cm7_event
  | txrx_half_cplt
  | txrx_cplt
  | loop_iter
deriving DecidableEq

/-- One step of the system.
`HAL_I2SEx_TxRxHalfCpltCallback` executes `callback_state = HALFCPLT;` and
`HAL_I2SEx_TxRxCpltCallback` executes `callback_state = CPLT;` — each is a
plain store, with no check of the previous value.  A loop iteration
switches on `callback_state`: `NONE` polls the menu, `HALFCPLT`/`CPLT`
process the corresponding half and store `NONE` back, and any other value
reaches the `default:` arm, `Error_Handler()`. -/
def cm7_step (s : cm7_state) : cm7_event → cm7_state
  | .txrx_half_cplt => { s with callback_state := HALFCPLT }
  | .txrx_cplt => { s with callback_state := CPLT }
  | .loop_iter =>
      match s.callback_state with
      | 0 => { s with menu_polls := s.menu_polls + 1 }
      | 1 => { s with ping_processed := s.ping_processed + 1,
                      callback_state := NONE }
      | 2 => { s with pong_processed := s.pong_processed + 1,
                      callback_state := NONE }
      | _ => { s with in_error_handler := true }

/-- Run a sequence of events from a state. -/
def cm7_run (s : cm7_state) (evs : List cm7_event) : cm7_state :=
  evs.foldl cm7_step s

/-! ## user_interface.c — the menu state machine -/

/-- `#define MAX_ITEM_SIZE (16)` — bytes per menu string. -/
def MAX_ITEM_SIZE : Nat := 16

/-- `#define MAX_ITEM_COUNT (7)` — rows per sub-menu. -/
def MAX_ITEM_COUNT : Nat := 7

/-- `#define SUBMENU_COUNT (7)` -/
def SUBMENU_COUNT : Nat := 7

/-- The `menus` table from `display_menu`: the top-level category list
followed by one entry list per effect.  (In the C array every row is padded
to `MAX_ITEM_COUNT` entries of `MAX_ITEM_SIZE` bytes; the lists here hold
the populated entries, whose last element is always `"BACK"`.) -/
def menus : List (List String) :=
  [ ["Pass-through", "Delay", "Overdrive", "Fuzz", "Tremolo", "Ring Modulator"],
    ["Start", "BACK"],
    ["Start", "Delay", "Feedback", "Blend", "BACK"],
    ["Start", "Threshold", "BACK"],
    ["Start", "Gain", "Mix", "BACK"],
    ["Start", "Rate", "Depth", "BACK"],
    ["Start", "Rate", "Blend", "Type", "BACK"] ]

/-- `menu_t` from user_interface.h (`cnt`/`past_cnt` are `uint16_t`, the
rest `uint8_t`). -/
structure menu_t where
  cnt : Nat
  past_cnt : Nat
  menu_depth : Nat
  item_selected : Nat
  sub_menu_selected : Nat
  show_values : Nat
deriving DecidableEq

/-- The button-press `switch (menu.menu_depth)` of `display_menu`
(executed when `btn_pressed` is set).  Takes the menu state, the current
`*mode` and the `TIM2->CNT` encoder counter; returns their updated values.

At depth 1 the source computes
`size = ARRAY_SIZE(menus[menu.sub_menu_selected][menu.item_selected])`:
the operand is the innermost `char[MAX_ITEM_SIZE]` row, so `size` is
`MAX_ITEM_SIZE = 16` whatever the category.  The depth-2 arm also calls
`confirm_value(&menu)`, which forwards the scaled value to the selected
effect's update function; that side effect is outside the menu state and
not needed by the claim under study. -/
def display_menu_button (menu : menu_t) (mode : Nat) (tim2_cnt : Nat) :
    menu_t × Nat × Nat :=
  match menu.menu_depth with
  | 0 =>
      ({ menu with sub_menu_selected := menu.item_selected,
                   menu_depth := (menu.menu_depth + 1) % 256 }, mode, tim2_cnt)
  | 1 =>
      let size := MAX_ITEM_SIZE
      if menu.item_selected = size - 1 then
        -- pop to top level, reset item selection and timer counter
        ({ menu with menu_depth := menu.menu_depth - 1,
                     item_selected := 0 }, mode, 0)
      else if menu.item_selected = 0 then
        -- "Start": commit the selected category as the active mode
        (menu, menu.sub_menu_selected, tim2_cnt)
      else
        -- parameter entry: enter value edit, seed the counter at 50
        ({ menu with show_values := 1,
                     menu_depth := (menu.menu_depth + 1) % 256 }, mode, 50)
  | 2 =>
      ({ menu with show_values := 0 }, mode, tim2_cnt)
  | _ =>
      ({ menu with menu_depth := menu.menu_depth - 1 }, mode, tim2_cnt)

/-! ## Concrete states used to instantiate the claims -/

/-- A delay handle with distinct `blend` and `feedback` values. -/
def delay_handle_ex : delay_handle_t :=
  { delay_ms := 400, blend := 3 / 10, feedback := 1 / 5, is_running := false,
    level := 0, src := some 1, dst := some 2, delay_rb := true }

/-- A delay handle before initialisation (C statics are zero-initialised). -/
def delay_handle0 : delay_handle_t :=
  { delay_ms := 0, blend := 0, feedback := 0, is_running := false,
    level := 0, src := none, dst := none, delay_rb := false }

/-- A ring modulator handle before initialisation. -/
def ring_mod_handle0 : ring_mod_handle_t :=
  { rate := 0, blend := 0, type := .SINE, is_running := false,
    src := none, dst := none, time := 0 }

/-- The menu state at depth `SubItem` with the pass-through category
selected (`sub_menu_selected = 1`) and its last entry `"BACK"`
(`item_selected = 1`) highlighted. -/
def menu_back_selected : menu_t :=
  { cnt := 7, past_cnt := 7, menu_depth := 1, item_selected := 1,
    sub_menu_selected := 1, show_values := 0 }

/-- A ring buffer of capacity 0: both full and empty
(`head - tail = 0 = max_elements`). -/
def rb_cap0 : ring_buffer :=
  { element_size := 1, max_elements := 0, buf := fun _ => 0, head := 0, tail := 0 }

/-! ## General lemmas about the `size_t` model and `memcpy` -/

theorem pred_u64_eq (N : Nat) (h1 : 0 < N) (h2 : N < U64) : pred_u64 N = N - 1 := by
  unfold pred_u64 sub_u64 U64 at *
  omega

theorem sub_u64_eq (a b : Nat) (hba : b ≤ a) (ha : a < U64) : sub_u64 a b = a - b := by
  unfold sub_u64 U64 at *
  omega

theorem succ_u64_eq (a : Nat) (h : a + 1 < U64) : succ_u64 a = a + 1 := by
  unfold succ_u64 U64 at *
  omega

theorem memcpyWrite_outside (data : List Nat) :
    ∀ (buf : Nat → Nat) (offset i : Nat),
    i < offset ∨ offset + data.length ≤ i → memcpyWrite buf offset data i = buf i := by
  induction data with
  | nil => intro buf offset i _; rfl
  | cons b rest ih =>
      intro buf offset i h
      have hns : i < offset + 1 ∨ (offset + 1) + rest.length ≤ i := by
        rcases h with h | h
        · exact Or.inl (by omega)
        · refine Or.inr ?_
          simp only [List.length_cons] at h
          omega
      have hne : i ≠ offset := by
        rcases h with h | h
        · omega
        · simp only [List.length_cons] at h
          omega
      rw [memcpyWrite, ih _ _ _ hns]
      simp [hne]

theorem memcpyRead_write_disjoint :
    ∀ (len roff : Nat) (buf : Nat → Nat) (woff : Nat) (data : List Nat),
    roff + len ≤ woff ∨ woff + data.length ≤ roff →
    memcpyRead (memcpyWrite buf woff data) roff len = memcpyRead buf roff len := by
  intro len
  induction len with
  | zero => intros; rfl
  | succ n ih =>
      intro roff buf woff data h
      rw [memcpyRead, memcpyRead, ih (roff + 1) buf woff data (by omega),
        memcpyWrite_outside data buf woff roff (by omega)]

theorem memcpyRead_write_self (data : List Nat) :
    ∀ (buf : Nat → Nat) (offset : Nat),
    memcpyRead (memcpyWrite buf offset data) offset data.length = data := by
  induction data with
  | nil => intros; rfl
  | cons b rest ih =>
      intro buf offset
      rw [List.length_cons, memcpyWrite, memcpyRead]
      refine congrArg₂ _ ?_ (ih _ _)
      rw [memcpyWrite_outside rest _ (offset + 1) offset (by omega)]
      simp

/-! ## Claim C2 — `delay_update` parameter isolation -/

/-- C2: the claim states that `delay_update(handle, FEEDBACK, v)` updates
exactly the feedback parameter and leaves every other field (in particular
`blend`) unchanged.  The code violates this: the `FEEDBACK` arm of the
`switch` has no `break`, so the call also overwrites `blend` with `v`.
Evaluated at a handle with `blend = 3/10`, updating `FEEDBACK` to `1/2`
succeeds but leaves `blend = 1/2 ≠ 3/10`. -/
theorem delay_update_feedback_clobbers_blend :
    (delay_update delay_handle_ex .FEEDBACK (1 / 2)).1 = 0 ∧
    (delay_update delay_handle_ex .FEEDBACK (1 / 2)).2.feedback = 1 / 2 ∧
    (delay_update delay_handle_ex .FEEDBACK (1 / 2)).2.blend = 1 / 2 ∧
    delay_handle_ex.blend = 3 / 10 ∧
    (delay_update delay_handle_ex .FEEDBACK (1 / 2)).2.blend ≠ delay_handle_ex.blend := by
  norm_num [delay_update, delay_handle_ex]

/-! ## Claim C3 — `ring_mod_init` validation -/

/-- C3: the claim states that `ring_mod_init` returns success for every
rate in `(0,1]`, blend in `[0,0.99]` and waveform choice, and 254 only for
out-of-range parameters.  The code's range check reads
`if ((rate >= 0) || (rate <= 1) || (blend < 0) || (blend > 0.99))`, and
`rate >= 0 || rate <= 1` is a tautology, so with non-`NULL` buffers the
function returns 254 for every parameter combination and never commits
anything — contradicting both the claim and the function's own
documentation (`Range: 0 < rate <= 1`, return `0: Success`). -/
theorem ring_mod_init_always_rejects (handle : ring_mod_handle_t)
    (a b : Nat) (rate blend : ℚ) (type : modulator_type) :
    (ring_mod_init handle (some a) (some b) rate blend type).1 = 254 ∧
    (ring_mod_init handle (some a) (some b) rate blend type).2 = handle := by
  have hcond : rate ≥ 0 ∨ rate ≤ 1 ∨ blend < 0 ∨ blend > 99 / 100 := by
    rcases le_total 0 rate with h | h
    · exact Or.inl h
    · exact Or.inr (Or.inl (h.trans (by norm_num)))
  simp [ring_mod_init, hcond]

/-! ## Claim C4 — menu "Back" navigation -/

/-- C4: the claim states that at depth `SubItem` a button press with the
last entry of the current category ("BACK") selected pops the menu to
`TopLevel`, resets the selected item and resets the position counter.  In
the code, the bound used for the last-entry test is
`ARRAY_SIZE(menus[sub][item]) = MAX_ITEM_SIZE = 16`, the byte size of one
menu string, not the category's entry count, so the test
`item_selected == size - 1` compares against 15 and the pop branch is
unreachable (item indices are kept below `MAX_ITEM_COUNT = 7`).  With the
pass-through category (index 1) and its last entry `"BACK"` (index 1)
selected, the press instead matches the parameter arm: it enters depth 2,
turns on value display, and seeds the counter to 50. -/
theorem display_menu_back_does_not_pop :
    (menus.getD menu_back_selected.sub_menu_selected []).length - 1 =
      menu_back_selected.item_selected ∧
    (menus.getD menu_back_selected.sub_menu_selected []).getLast? = some "BACK" ∧
    display_menu_button menu_back_selected 0 7 =
      ({ menu_back_selected with show_values := 1, menu_depth := 2 }, 0, 50) ∧
    (display_menu_button menu_back_selected 0 7).1.menu_depth ≠ 0 := by
  decide

/-! ## Claim C9 — `run_fuzz` divide-by-zero guard -/

/-- C9: the claim states that the division by the running per-block
maximum in `run_fuzz` is guarded so that a zero maximum never causes a
division by zero.  There is no guard in the code: on an all-zero input
block every `q` is zero, every `z[i]` is set to 0, `max_z` keeps its
initial value 0, and the output loop evaluates
`mix * z[i] * (1 << 24) / max_z` with divisor 0 (the embedding returns
`none` exactly when that unguarded division has a zero divisor).  This
holds for every handle and independently of the external `expf`, which the
all-zero block never calls. -/
theorem run_fuzz_silence_divides_by_zero (expf : ℚ → ℚ) (handle : fuzz_handle_t) :
    (fuzz_pass1 expf handle.gain (List.replicate PING_PONG_BUFFER_SIZE 0) 0).2 = 0 ∧
    run_fuzz expf handle (List.replicate PING_PONG_BUFFER_SIZE 0) = none := by
  have hz : ∀ (n : Nat) (m : ℚ),
      fuzz_pass1 expf handle.gain (List.replicate n 0) m = (List.replicate n 0, m) := by
    intro n
    induction n with
    | zero => intro m; rfl
    | succ n ih => intro m; simp [List.replicate_succ, fuzz_pass1, ih]
  refine ⟨by rw [hz], ?_⟩
  unfold run_fuzz
  rw [List.take_replicate]
  simp [hz]

/-! ## Claim C1 — overrun handling of transfer notifications -/

theorem cm7_step_preserves (s : cm7_state) (hcs : s.callback_state ≤ 2)
    (hf : s.in_error_handler = false) (e : cm7_event) :
    (cm7_step s e).callback_state ≤ 2 ∧ (cm7_step s e).in_error_handler = false := by
  cases e with
  | txrx_half_cplt => simp [cm7_step, HALFCPLT, hf]
  | txrx_cplt => simp [cm7_step, CPLT, hf]
  | loop_iter =>
      have h3 : s.callback_state = 0 ∨ s.callback_state = 1 ∨ s.callback_state = 2 := by
        omega
      rcases h3 with h | h | h <;> simp [cm7_step, h, NONE, hf]

theorem cm7_run_no_error (evs : List cm7_event) :
    ∀ s : cm7_state, s.callback_state ≤ 2 → s.in_error_handler = false →
    (cm7_run s evs).in_error_handler = false := by
  induction evs with
  | nil => intro s _ hf; simpa [cm7_run] using hf
  | cons e evs ih =>
      intro s hcs hf
      have h := cm7_step_preserves s hcs hf e
      simpa [cm7_run] using ih (cm7_step s e) h.1 h.2

/-- C1 (counterexample): the claim states that a second transfer-complete
notification for the same phase, delivered while the pending-state flag is
not back to `NONE`, is detected and reported as a fatal overrun and never
silently dropped or overwritten.  Delivering two half-complete
notifications back to back and then running one loop iteration leaves the
system in exactly the state a single notification produces: no error
handler runs, and only one half-block of work is performed — the second
notification was silently overwritten. -/
theorem cm7_double_notify_not_detected :
    cm7_run cm7_state0 [.txrx_half_cplt, .txrx_half_cplt, .loop_iter] =
      cm7_run cm7_state0 [.txrx_half_cplt, .loop_iter] ∧
    (cm7_run cm7_state0 [.txrx_half_cplt, .txrx_half_cplt, .loop_iter]).in_error_handler
      = false ∧
    (cm7_run cm7_state0 [.txrx_half_cplt, .txrx_half_cplt, .loop_iter]).ping_processed
      = 1 := by
  decide

/-- C1 (amended): each transfer callback is a plain store to the
notification flag, so a repeated notification of the same phase overwrites
the pending value with the same value and is dropped without trace;
no overrun is ever detected or reported — starting from reset, no sequence
of notifications and loop iterations can reach `Error_Handler`, whose
`default:` branch is unreachable for the values the callbacks write. -/
theorem cm7_overrun_silently_overwritten :
    (∀ evs : List cm7_event, (cm7_run cm7_state0 evs).in_error_handler = false) ∧
    (∀ s : cm7_state,
      cm7_step (cm7_step s .txrx_half_cplt) .txrx_half_cplt =
        cm7_step s .txrx_half_cplt ∧
      cm7_step (cm7_step s .txrx_cplt) .txrx_cplt = cm7_step s .txrx_cplt) := by
  constructor
  · intro evs
    exact cm7_run_no_error evs cm7_state0 (by decide) (by decide)
  · intro s
    constructor <;> rfl

/-! ## Claim C6 — full/empty behaviour and failure atomicity -/

/-- C6: for an initialised ring buffer (designator 0), `put` fails exactly
when `count = head - tail` (unsigned subtraction) equals `max_elements`,
and a failing `put` leaves head, tail and storage unchanged; `get` fails
exactly when `count` is zero, and a failing `get` writes nothing and
leaves the buffer unchanged. -/
theorem ring_buffer_full_empty_atomic (rb : ring_buffer) (data : List Nat) :
    ((ring_buffer_put 0 data rb).1 = FAILURE ↔
      ring_buffer_count rb = rb.max_elements) ∧
    (ring_buffer_count rb = rb.max_elements → (ring_buffer_put 0 data rb).2 = rb) ∧
    ((ring_buffer_get 0 rb).1 = FAILURE ↔ ring_buffer_count rb = 0) ∧
    (ring_buffer_count rb = 0 →
      (ring_buffer_get 0 rb).2.2 = rb ∧ (ring_buffer_get 0 rb).2.1 = none) := by
  refine ⟨?_, ?_, ?_, ?_⟩
  · by_cases h : sub_u64 rb.head rb.tail = rb.max_elements <;>
      simp [ring_buffer_put, _ring_buffer_full, ring_buffer_count,
        RING_BUFFER_MAX, SUCCESS, FAILURE, h]
  · intro h
    simp only [ring_buffer_count] at h
    simp [ring_buffer_put, _ring_buffer_full, RING_BUFFER_MAX, if_pos h]
  · by_cases h : sub_u64 rb.head rb.tail = 0 <;>
      simp [ring_buffer_get, _ring_buffer_empty, ring_buffer_count,
        RING_BUFFER_MAX, SUCCESS, FAILURE, h]
  · intro h
    simp only [ring_buffer_count] at h
    simp [ring_buffer_get, _ring_buffer_empty, RING_BUFFER_MAX, if_pos h]

/-- C6 witness: the capacity-0 buffer is simultaneously full
(`count = max_elements`) and empty (`count = 0`); a `put` and a `get`
against it both fail without modifying it, and the `get` writes nothing. -/
theorem ring_buffer_full_empty_atomic_witness :
    ring_buffer_count rb_cap0 = rb_cap0.max_elements ∧
    ring_buffer_count rb_cap0 = 0 ∧
    (ring_buffer_put 0 [9] rb_cap0).2 = rb_cap0 ∧
    (ring_buffer_get 0 rb_cap0).2.2 = rb_cap0 ∧
    (ring_buffer_get 0 rb_cap0).2.1 = none :=
  ⟨by decide, by decide,
    (ring_buffer_full_empty_atomic rb_cap0 [9]).2.1 (by decide),
    ((ring_buffer_full_empty_atomic rb_cap0 [9]).2.2.2 (by decide)).1,
    ((ring_buffer_full_empty_atomic rb_cap0 [9]).2.2.2 (by decide)).2⟩

/-! ## Claim C7 — power-of-two capacity validation -/

theorem land_eq_zero_iff_testBit (x y : Nat) :
    x &&& y = 0 ↔ ∀ i, x.testBit i = false ∨ y.testBit i = false := by
  constructor
  · intro h i
    have h' := congrArg (fun n => n.testBit i) h
    simp only [Nat.testBit_land, Nat.zero_testBit] at h'
    cases hx : x.testBit i with
    | false => exact Or.inl rfl
    | true => exact Or.inr (by simpa [hx] using h')
  · intro h
    refine Nat.zero_of_testBit_eq_false fun i => ?_
    rw [Nat.testBit_land]
    rcases h i with h' | h' <;> simp [h']

theorem exists_testBit_of_ne_zero {m : Nat} (h : m ≠ 0) :
    ∃ i, m.testBit i = true := by
  by_contra hc
  push_neg at hc
  exact h (Nat.zero_of_testBit_eq_false fun i => by simpa using hc i)

theorem sub_one_land_self_pow2 :
    ∀ N, 0 < N → (N - 1) &&& N = 0 → ∃ k, N = 2 ^ k := by
  intro N
  induction N using Nat.strong_induction_on with
  | _ N ih =>
    intro hpos hand
    rcases Nat.mod_two_eq_zero_or_one N with hpar | hpar
    · -- N even, N = 2 * (N / 2)
      have hstep : (N / 2 - 1) &&& (N / 2) = 0 := by
        rw [land_eq_zero_iff_testBit]
        intro i
        by_contra hc
        push_neg at hc
        obtain ⟨h1, h2⟩ := hc
        have hb1 : (N - 1).testBit (i + 1) = true := by
          rw [Nat.testBit_add_one]
          have hdiv : (N - 1) / 2 = N / 2 - 1 := by omega
          rw [hdiv]
          exact Bool.ne_false_iff.mp h1
        have hb2 : N.testBit (i + 1) = true := by
          rw [Nat.testBit_add_one]
          exact Bool.ne_false_iff.mp h2
        have hcontra := (land_eq_zero_iff_testBit _ _).mp hand (i + 1)
        rcases hcontra with h' | h' <;> simp_all
      obtain ⟨k, hk⟩ := ih (N / 2) (by omega) (by omega) hstep
      exact ⟨k + 1, by omega⟩
    · -- N odd: N must be 1
      rcases Nat.lt_or_ge N 2 with hlt | hge
      · exact ⟨0, by omega⟩
      · exfalso
        have hm : N / 2 ≠ 0 := by omega
        obtain ⟨i, hi⟩ := exists_testBit_of_ne_zero hm
        have hb1 : (N - 1).testBit (i + 1) = true := by
          rw [Nat.testBit_add_one]
          have hdiv : (N - 1) / 2 = N / 2 := by omega
          rw [hdiv]
          exact hi
        have hb2 : N.testBit (i + 1) = true := by
          rw [Nat.testBit_add_one]
          exact hi
        have hcontra := (land_eq_zero_iff_testBit _ _).mp hand (i + 1)
        rcases hcontra with h' | h' <;> simp_all

theorem sub_one_land_self_eq_zero_iff (N : Nat) (hpos : 0 < N) :
    (N - 1) &&& N = 0 ↔ ∃ k, N = 2 ^ k := by
  constructor
  · exact sub_one_land_self_pow2 N hpos
  · rintro ⟨k, rfl⟩
    rw [land_eq_zero_iff_testBit]
    intro i
    rcases Nat.lt_or_ge i k with h | h
    · exact Or.inr (by rw [Nat.testBit_two_pow]; exact decide_eq_false (by omega))
    · exact Or.inl (by rw [Nat.testBit_two_pow_sub_one]; exact decide_eq_false (by omega))

theorem pred_u64_land_self_eq_zero_iff (N : Nat) (h : N < U64) :
    pred_u64 N &&& N = 0 ↔ N = 0 ∨ ∃ k, N = 2 ^ k := by
  rcases Nat.eq_zero_or_pos N with rfl | hpos
  · simp
  · rw [pred_u64_eq N hpos h, sub_one_land_self_eq_zero_iff N hpos]
    constructor
    · exact fun hh => Or.inr hh
    · rintro (rfl | hh)
      · omega
      · exact hh

/-- C7 (counterexample): the claim states that, given non-`NULL` pointers,
a positive element size and a free slot, `ring_buffer_init` succeeds if
and only if the capacity is a power of two.  Capacity 0 refutes the
"only if" direction: in `size_t` arithmetic `(0 - 1) & 0 == 0`, so the
check passes and initialisation succeeds, yet 0 is not a power of two. -/
theorem ring_buffer_init_capacity_zero_accepted :
    (ring_buffer_init false false
      { element_size := 1, max_elements := 0, buffer_null := false }
      (fun _ => 0) { index := 0, slot := rb_slot0 }).1 = SUCCESS ∧
    ∀ k : Nat, (0 : Nat) ≠ 2 ^ k := by
  constructor
  · have hz : pred_u64 0 &&& 0 = 0 := Nat.and_zero _
    simp [ring_buffer_init, RING_BUFFER_MAX, hz]
  · intro k h
    have hp := pow_pos (by norm_num : (0:Nat) < 2) k
    omega

/-- C7 (amended): with non-`NULL` pointers, positive element size, a free
slot and a capacity representable in `size_t`, `ring_buffer_init`
succeeds if and only if the capacity is zero or a power of two (the code's
check is `((max_elements - 1) & max_elements) == 0` in `size_t`
arithmetic); in particular capacity 17 fails and capacity 16 succeeds. -/
theorem ring_buffer_init_pow2_check (attr : rb_handle_t) (storage : Nat → Nat)
    (st : rb_module_state) (hfree : st.index = 0)
    (hbuf : attr.buffer_null = false) (hsz : 0 < attr.element_size)
    (hcap : attr.max_elements < U64) :
    ((ring_buffer_init false false attr storage st).1 = SUCCESS ↔
      attr.max_elements = 0 ∨ ∃ k, attr.max_elements = 2 ^ k) ∧
    (ring_buffer_init false false
      { element_size := 1, max_elements := 17, buffer_null := false }
      (fun _ => 0) { index := 0, slot := rb_slot0 }).1 = FAILURE ∧
    (ring_buffer_init false false
      { element_size := 1, max_elements := 16, buffer_null := false }
      (fun _ => 0) { index := 0, slot := rb_slot0 }).1 = SUCCESS := by
  refine ⟨?_, ?_, ?_⟩
  · rw [← pred_u64_land_self_eq_zero_iff attr.max_elements hcap]
    by_cases h : pred_u64 attr.max_elements &&& attr.max_elements = 0 <;>
      simp [ring_buffer_init, RING_BUFFER_MAX, hfree, hbuf, hsz, h,
        SUCCESS, FAILURE]
  · have h17 : pred_u64 17 &&& 17 = 16 := by
      rw [pred_u64_eq 17 (by norm_num) (by norm_num [U64])]
      decide
    simp [ring_buffer_init, RING_BUFFER_MAX, h17, SUCCESS, FAILURE]
  · have h16 : pred_u64 16 &&& 16 = 0 := by
      rw [pred_u64_eq 16 (by norm_num) (by norm_num [U64])]
      decide
    simp [ring_buffer_init, RING_BUFFER_MAX, h16, SUCCESS]

/-- C7 witness: instantiating the amended theorem at capacity 16 with
element size 1, non-`NULL` pointers and the fresh module state. -/
theorem ring_buffer_init_pow2_check_witness :
    ((0 : Nat) = 0 ∧ (false = false) ∧ (0 : Nat) < 1 ∧ (16 : Nat) < U64) ∧
    ((ring_buffer_init false false
        { element_size := 1, max_elements := 16, buffer_null := false }
        (fun _ => 0) { index := 0, slot := rb_slot0 }).1 = SUCCESS ↔
      (16 : Nat) = 0 ∨ ∃ k, (16 : Nat) = 2 ^ k) :=
  ⟨⟨rfl, rfl, by norm_num, by norm_num [U64]⟩,
    (ring_buffer_init_pow2_check
      { element_size := 1, max_elements := 16, buffer_null := false }
      (fun _ => 0) { index := 0, slot := rb_slot0 }
      rfl rfl (by norm_num) (by norm_num [U64])).1⟩

/-! ## Claim C10 — one-shot ring buffer allocation -/

theorem ring_buffer_init_no_slot (st : rb_module_state) (h : RING_BUFFER_MAX ≤ st.index)
    (c : rb_init_call) :
    (ring_buffer_init c.rbd_null c.attr_null c.attr c.storage st).1 = FAILURE ∧
    (ring_buffer_init c.rbd_null c.attr_null c.attr c.storage st).2.2 = st := by
  have hn : ¬ st.index < RING_BUFFER_MAX := by omega
  simp [ring_buffer_init, hn]

theorem ring_buffer_init_index_mono (rbd_null attr_null : Bool) (attr : rb_handle_t)
    (storage : Nat → Nat) (st : rb_module_state) :
    ((ring_buffer_init rbd_null attr_null attr storage st).1 = SUCCESS ∧
      (ring_buffer_init rbd_null attr_null attr storage st).2.2.index = st.index + 1) ∨
    ((ring_buffer_init rbd_null attr_null attr storage st).1 = FAILURE ∧
      (ring_buffer_init rbd_null attr_null attr storage st).2.2 = st) := by
  unfold ring_buffer_init
  by_cases h1 : st.index < RING_BUFFER_MAX ∧ rbd_null = false ∧ attr_null = false
  · by_cases h2 : attr.buffer_null = false ∧ 0 < attr.element_size
    · by_cases h3 : pred_u64 attr.max_elements &&& attr.max_elements = 0
      · exact Or.inl (by simp [h1, h2, h3])
      · exact Or.inr (by simp [h1, h2, h3])
    · exact Or.inr (by simp [h1, h2])
  · exact Or.inr (by simp [h1])

theorem rb_initAll_exhausted (calls : List rb_init_call) :
    ∀ st : rb_module_state, RING_BUFFER_MAX ≤ st.index →
    (rb_initAll calls st).1.count SUCCESS = 0 := by
  induction calls with
  | nil => intro st _; rfl
  | cons c cs ih =>
      intro st h
      have hc := ring_buffer_init_no_slot st h c
      simp [rb_initAll, List.count_cons, hc.1, ih _ (hc.2 ▸ h),
        show FAILURE ≠ SUCCESS by decide]

theorem rb_initAll_count (calls : List rb_init_call) :
    ∀ st : rb_module_state, st.index = 0 →
    (rb_initAll calls st).1.count SUCCESS ≤ RING_BUFFER_MAX := by
  induction calls with
  | nil => intro st _; simp [rb_initAll, RING_BUFFER_MAX]
  | cons c cs ih =>
      intro st h0
      rcases ring_buffer_init_index_mono c.rbd_null c.attr_null c.attr c.storage st
        with ⟨hs, hi⟩ | ⟨hf, hst⟩
      · have hrest := rb_initAll_exhausted cs
          (ring_buffer_init c.rbd_null c.attr_null c.attr c.storage st).2.2
          (by rw [hi, h0]; norm_num [RING_BUFFER_MAX])
        simp [rb_initAll, List.count_cons, hs, hrest, RING_BUFFER_MAX]
      · have hrest := ih (ring_buffer_init c.rbd_null c.attr_null c.attr c.storage st).2.2
          (by rw [hst]; exact h0)
        simp only [rb_initAll, List.count_cons, hf]
        simp [show ¬ (FAILURE = SUCCESS) by decide]
        exact hrest

/-- C10: `ring_buffer_init` can succeed at most `RING_BUFFER_MAX = 1`
times per process lifetime: the internal `static int index` is incremented
on every success and never decremented or reset, so over any sequence of
calls starting from the zero-initialised module state at most one call
returns `SUCCESS`, and once the slot counter has reached
`RING_BUFFER_MAX`, every further call returns `FAILURE` (and leaves the
module state unchanged) no matter how valid its arguments are. -/
theorem ring_buffer_init_at_most_once :
    (∀ calls : List rb_init_call,
      (rb_initAll calls { index := 0, slot := rb_slot0 }).1.count SUCCESS ≤
        RING_BUFFER_MAX) ∧
    (∀ st : rb_module_state, RING_BUFFER_MAX ≤ st.index → ∀ c : rb_init_call,
      (ring_buffer_init c.rbd_null c.attr_null c.attr c.storage st).1 = FAILURE) := by
  constructor
  · intro calls
    exact rb_initAll_count calls { index := 0, slot := rb_slot0 } rfl
  · intro st h c
    exact (ring_buffer_init_no_slot st h c).1

/-- C10 witness: after a successful initialisation the counter is 1, and a
further call with perfectly valid arguments (capacity 16, element size 1,
non-`NULL` pointers) fails. -/
theorem ring_buffer_init_at_most_once_witness :
    RING_BUFFER_MAX ≤ (1 : Nat) ∧
    (ring_buffer_init false false
      { element_size := 1, max_elements := 16, buffer_null := false }
      (fun _ => 0) { index := 1, slot := rb_slot0 }).1 = FAILURE :=
  ⟨by decide,
    ring_buffer_init_at_most_once.2 { index := 1, slot := rb_slot0 } (by decide)
      { rbd_null := false, attr_null := false,
        attr := { element_size := 1, max_elements := 16, buffer_null := false },
        storage := fun _ => 0 }⟩

/-! ## Claim C5 — the FIFO law -/

theorem pow_le_63_lt_U64 (N k : Nat) (hN : N = 2 ^ k) (hk : k ≤ 63) : N < U64 := by
  have h1 : (2 : Nat) ^ k ≤ 2 ^ 63 := Nat.pow_le_pow_right (by norm_num) hk
  have h2 : (2 : Nat) ^ 63 < 2 ^ 64 := by norm_num
  simp only [U64]
  omega

theorem rb_offset_eq (p E N k : Nat) (hN : N = 2 ^ k) (hk : k ≤ 63)
    (hp : p < N) (hNE : N * E < U64) :
    (p &&& pred_u64 N) * E % U64 = p * E := by
  have hN1 : 0 < N := hN ▸ pow_pos (by norm_num) k
  have hNU : N < U64 := pow_le_63_lt_U64 N k hN hk
  have hmask : p &&& pred_u64 N = p := by
    rw [pred_u64_eq N hN1 hNU, hN, Nat.and_pow_two_sub_one_eq_mod,
      Nat.mod_eq_of_lt (hN ▸ hp)]
  rw [hmask]
  exact Nat.mod_eq_of_lt
    (lt_of_le_of_lt (Nat.mul_le_mul_right E hp.le) hNE)

theorem ring_buffer_ext (rb : ring_buffer) (E N hd tl : Nat)
    (h1 : rb.element_size = E) (h2 : rb.max_elements = N)
    (h3 : rb.head = hd) (h4 : rb.tail = tl) :
    rb = ⟨E, N, rb.buf, hd, tl⟩ := by
  cases rb
  simp_all

theorem rb_putAll_spec (E N k : Nat) (hN : N = 2 ^ k) (hk : k ≤ 63)
    (hNE : N * E < U64) :
    ∀ (ys : List (List Nat)) (p : Nat) (buf : Nat → Nat) (g : Nat → List Nat),
    (∀ x ∈ ys, x.length = E) → p + ys.length ≤ N →
    (∀ j, j < p → memcpyRead buf (j * E) E = g j) →
    (rb_putAll ys ⟨E, N, buf, p, 0⟩).1 = List.replicate ys.length SUCCESS ∧
    (rb_putAll ys ⟨E, N, buf, p, 0⟩).2.element_size = E ∧
    (rb_putAll ys ⟨E, N, buf, p, 0⟩).2.max_elements = N ∧
    (rb_putAll ys ⟨E, N, buf, p, 0⟩).2.head = p + ys.length ∧
    (rb_putAll ys ⟨E, N, buf, p, 0⟩).2.tail = 0 ∧
    (∀ j, j < p + ys.length →
      memcpyRead (rb_putAll ys ⟨E, N, buf, p, 0⟩).2.buf (j * E) E =
        if j < p then g j else ys.getD (j - p) []) := by
  have hNU : N < U64 := pow_le_63_lt_U64 N k hN hk
  intro ys
  induction ys with
  | nil =>
      intro p buf g _ _ hreads
      refine ⟨rfl, rfl, rfl, by simp [rb_putAll], rfl, ?_⟩
      intro j hj
      simp only [List.length_nil, Nat.add_zero] at hj
      simp [rb_putAll, hj, hreads j hj]
  | cons x ys ih =>
      intro p buf g hlen hcap hreads
      have hpN : p < N := by
        simp only [List.length_cons] at hcap
        omega
      have hx : x.length = E := hlen x (List.mem_cons_self x ys)
      have hsub : sub_u64 p 0 = p := by
        unfold sub_u64 U64 at *
        omega
      have hfull : _ring_buffer_full ⟨E, N, buf, p, 0⟩ = 0 := by
        simp [_ring_buffer_full, hsub, Nat.ne_of_lt hpN]
      have hoff : (p &&& pred_u64 N) * E % U64 = p * E :=
        rb_offset_eq p E N k hN hk hpN hNE
      have hsucc : succ_u64 p = p + 1 := succ_u64_eq p (by omega)
      have htake : List.take E x = x := by
        rw [← hx]
        exact List.take_length x
      have hput : ring_buffer_put 0 x ⟨E, N, buf, p, 0⟩ =
          (SUCCESS, ⟨E, N, memcpyWrite buf (p * E) x, p + 1, 0⟩) := by
        simp [ring_buffer_put, RING_BUFFER_MAX, hfull, hoff, hsucc, htake]
      have hreads' : ∀ j, j < p + 1 →
          memcpyRead (memcpyWrite buf (p * E) x) (j * E) E =
            (fun j => if j = p then x else g j) j := by
        intro j hj
        rcases Nat.lt_or_ge j p with hjp | hjp
        · have hdisj : j * E + E ≤ p * E := by
            calc j * E + E = (j + 1) * E := by ring
            _ ≤ p * E := Nat.mul_le_mul_right E hjp
          rw [memcpyRead_write_disjoint E (j * E) buf (p * E) x (Or.inl hdisj),
            hreads j hjp]
          simp [Nat.ne_of_lt hjp]
        · have hjp' : j = p := by omega
          subst hjp'
          have hself := memcpyRead_write_self x buf (j * E)
          rw [hx] at hself
          simp [hself]
      obtain ⟨ha, hb, hc, hd, he, hf⟩ :=
        ih (p + 1) (memcpyWrite buf (p * E) x) (fun j => if j = p then x else g j)
          (fun y hy => hlen y (List.mem_cons_of_mem x hy))
          (by simp only [List.length_cons] at hcap; omega) hreads'
      have hunfold : rb_putAll (x :: ys) ⟨E, N, buf, p, 0⟩ =
          ((ring_buffer_put 0 x ⟨E, N, buf, p, 0⟩).1 ::
            (rb_putAll ys (ring_buffer_put 0 x ⟨E, N, buf, p, 0⟩).2).1,
           (rb_putAll ys (ring_buffer_put 0 x ⟨E, N, buf, p, 0⟩).2).2) := rfl
      rw [hunfold, hput]
      refine ⟨?_, hb, hc, ?_, he, ?_⟩
      · simp [List.replicate_succ, ha]
      · simp only [hd, List.length_cons]
        omega
      · intro j hj
        rcases lt_trichotomy j p with hlt | heq | hgt
        · have := hf j (by simp only [List.length_cons] at hj ⊢; omega)
          rw [this]
          simp [hlt, Nat.lt_succ_of_lt hlt, Nat.ne_of_lt hlt]
        · subst heq
          have := hf j (by simp only [List.length_cons] at hj ⊢; omega)
          rw [this]
          simp
        · have := hf j (by simp only [List.length_cons] at hj ⊢; omega)
          rw [this]
          have h1 : ¬ j < p + 1 := by omega
          have h2 : ¬ j < p := by omega
          have h3 : j ≠ p := by omega
          have h4 : j - p = (j - (p + 1)) + 1 := by omega
          simp only [if_neg h1, if_neg h2, if_neg h3, h4, List.getD_cons_succ]

theorem rb_getAll_spec (E N k : Nat) (hN : N = 2 ^ k) (hk : k ≤ 63)
    (hNE : N * E < U64) :
    ∀ (n t : Nat) (buf : Nat → Nat) (g : Nat → List Nat),
    t + n ≤ N →
    (∀ j, t ≤ j → j < t + n → memcpyRead buf (j * E) E = g j) →
    (rb_getAll n ⟨E, N, buf, t + n, t⟩).1 =
      (List.range n).map (fun i => some (g (t + i))) := by
  have hNU : N < U64 := pow_le_63_lt_U64 N k hN hk
  intro n
  induction n with
  | zero => intro t buf g _ _; simp [rb_getAll]
  | succ n ih =>
      intro t buf g hcap hreads
      have htN : t < N := by omega
      have hsub : sub_u64 (t + (n + 1)) t = n + 1 := by
        unfold sub_u64 U64 at *
        omega
      have hempty : _ring_buffer_empty ⟨E, N, buf, t + (n + 1), t⟩ = 0 := by
        simp [_ring_buffer_empty, hsub]
      have hoff : (t &&& pred_u64 N) * E % U64 = t * E :=
        rb_offset_eq t E N k hN hk htN hNE
      have hsucc : succ_u64 t = t + 1 := succ_u64_eq t (by omega)
      have hget : ring_buffer_get 0 ⟨E, N, buf, t + (n + 1), t⟩ =
          (SUCCESS, some (memcpyRead buf (t * E) E), ⟨E, N, buf, t + (n + 1), t + 1⟩) := by
        simp [ring_buffer_get, RING_BUFFER_MAX, hempty, hoff, hsucc]
      have hout : memcpyRead buf (t * E) E = g t :=
        hreads t le_rfl (by omega)
      have hstep : rb_getAll (n + 1) ⟨E, N, buf, t + (n + 1), t⟩ =
          ((ring_buffer_get 0 ⟨E, N, buf, t + (n + 1), t⟩).2.1 ::
            (rb_getAll n (ring_buffer_get 0 ⟨E, N, buf, t + (n + 1), t⟩).2.2).1,
           (rb_getAll n (ring_buffer_get 0 ⟨E, N, buf, t + (n + 1), t⟩).2.2).2) := rfl
      have hshift : t + (n + 1) = (t + 1) + n := by omega
      have hih := ih (t + 1) buf g (by omega)
        (fun j hj1 hj2 => hreads j (by omega) (by omega))
      rw [hstep, hget]
      simp only
      rw [hshift, hih]
      rw [List.range_succ_eq_map, List.map_cons, List.map_map, hout]
      refine congrArg₂ _ (by rw [Nat.add_zero]) ?_
      refine List.map_congr_left ?_
      intro i _
      simp only [Function.comp]
      refine congrArg some (congrArg g (by omega))

theorem range_map_getD (xs : List (List Nat)) :
    (List.range xs.length).map (fun i => some (xs.getD i [])) = xs.map some := by
  apply List.ext_getElem
  · simp
  · intro i h1 h2
    simp only [List.getElem_map, List.getElem_range]
    rw [List.getD_eq_getElem]

/-- C5: the FIFO law.  For an initialised ring buffer (capacity a power of
two, as `ring_buffer_init` enforces; at most 2^63 so the `size_t` counters
cannot wrap during the experiment; storage of `capacity * element_size`
addressable bytes) and any sequence of at most capacity-many elements of
the declared element size, every `put` succeeds, and the subsequent `get`
calls return exactly the inserted elements in insertion order. -/
theorem rb_fifo_law (E N k : Nat) (xs : List (List Nat)) (b0 : Nat → Nat)
    (hN : N = 2 ^ k) (hk : k ≤ 63) (hNE : N * E < U64)
    (hlen : ∀ x ∈ xs, x.length = E) (hcap : xs.length ≤ N) :
    (rb_putAll xs ⟨E, N, b0, 0, 0⟩).1 = List.replicate xs.length SUCCESS ∧
    (rb_getAll xs.length (rb_putAll xs ⟨E, N, b0, 0, 0⟩).2).1 = xs.map some := by
  obtain ⟨hcodes, hes, hme, hhd, htl, hreads⟩ :=
    rb_putAll_spec E N k hN hk hNE xs 0 b0 (fun _ => []) hlen (by omega)
      (fun j hj => absurd hj (by omega))
  refine ⟨hcodes, ?_⟩
  have hstate := ring_buffer_ext (rb_putAll xs ⟨E, N, b0, 0, 0⟩).2 E N
    (0 + xs.length) 0 hes hme (by omega) htl
  rw [hstate]
  have hga := rb_getAll_spec E N k hN hk hNE xs.length 0
    (rb_putAll xs ⟨E, N, b0, 0, 0⟩).2.buf (fun j => xs.getD j []) (by omega)
    (fun j hj1 hj2 => by
      have := hreads j (by omega)
      simpa using this)
  rw [hga, ← range_map_getD xs]
  simp

/-- C5 witness: a capacity-2 byte buffer receives `[5]` then `[7]`; both
puts succeed and the two gets return `[5]` then `[7]`. -/
theorem rb_fifo_law_witness :
    ((2 : Nat) = 2 ^ 1 ∧ (1 : Nat) ≤ 63 ∧ (2 : Nat) * 1 < U64 ∧
      (∀ x ∈ [[5], [7]], List.length x = 1) ∧
      ([[5], [7]] : List (List Nat)).length ≤ 2) ∧
    ((rb_putAll [[5], [7]] ⟨1, 2, fun _ => 0, 0, 0⟩).1 =
        List.replicate 2 SUCCESS ∧
      (rb_getAll 2 (rb_putAll [[5], [7]] ⟨1, 2, fun _ => 0, 0, 0⟩).2).1 =
        [[5], [7]].map some) :=
  ⟨⟨by norm_num, by norm_num, by norm_num [U64], by decide, by decide⟩,
    rb_fifo_law 1 2 1 [[5], [7]] (fun _ => 0) (by norm_num) (by norm_num)
      (by norm_num [U64]) (by decide) (by decide)⟩

/-! ## Claim C8 — `delay_init` validation and commit -/

/-- C8 (counterexample): the claim states that with non-`NULL` buffers
`delay_init` returns the out-of-range error exactly when delay time lies
outside `(0, MAX_DELAY_TIME]`, feedback outside `(0,1)`, or blend outside
`(0,1)`.  Feedback `0.995` lies inside `(0,1)` — and delay `400` and blend
`0.5` are inside their claimed ranges — yet the call returns 254, because
the code's check is `feedback >= 0.99f`, not `feedback >= 1`. -/
theorem delay_init_rejects_claimed_range :
    (delay_init fx_delay_state0 delay_handle0 (some 1) (some 2)
      400 (1 / 2) (199 / 200)).1 = 254 ∧
    ((0 : ℚ) < 400 ∧ (400 : ℚ) ≤ MAX_DELAY_TIME) ∧
    ((0 : ℚ) < 199 / 200 ∧ (199 / 200 : ℚ) < 1) ∧
    ((0 : ℚ) < 1 / 2 ∧ (1 / 2 : ℚ) < 1) := by
  refine ⟨?_, by norm_num [MAX_DELAY_TIME], by norm_num, by norm_num⟩
  have hfb : (99 / 100 : ℚ) ≤ 199 / 200 := by norm_num
  simp [delay_init, hfb]

/-- C8 (amended): with non-`NULL` buffers and the reset-time module state
(`delay_rbd` still `FXDELAY`, ring buffer slot free), `delay_init` returns
254 exactly when `blend ∉ (0,1)`, `feedback ∉ (0, 0.99)`, or
`delay_ms > MAX_DELAY_TIME` (so a non-positive delay time is accepted);
otherwise it succeeds and commits exactly the given buffer addresses,
delay time, blend and feedback into the handle. -/
theorem delay_init_range_check (st : fx_delay_state) (handle : delay_handle_t)
    (a b : Nat) (delay_ms blend feedback : ℚ)
    (hrbd : st.delay_rbd = FXDELAY) (hfree : st.rb.index = 0) :
    ((delay_init st handle (some a) (some b) delay_ms blend feedback).1 = 254 ↔
      (blend ≤ 0 ∨ blend ≥ 1 ∨ feedback ≤ 0 ∨ feedback ≥ 99 / 100 ∨
        delay_ms > MAX_DELAY_TIME)) ∧
    (¬ (blend ≤ 0 ∨ blend ≥ 1 ∨ feedback ≤ 0 ∨ feedback ≥ 99 / 100 ∨
        delay_ms > MAX_DELAY_TIME) →
      (delay_init st handle (some a) (some b) delay_ms blend feedback).1 = 0 ∧
      (delay_init st handle (some a) (some b) delay_ms blend feedback).2.1 =
        { handle with src := some a, dst := some b, delay_ms := delay_ms,
                      blend := blend, feedback := feedback, delay_rb := true }) := by
  by_cases hc : blend ≤ 0 ∨ blend ≥ 1 ∨ feedback ≤ 0 ∨ feedback ≥ 99 / 100 ∨
      delay_ms > MAX_DELAY_TIME
  · refine ⟨?_, fun hnc => absurd hc hnc⟩
    simp [delay_init, hc]
  · have hpow : pred_u64 65536 &&& 65536 = 0 := by
      rw [pred_u64_eq 65536 (by norm_num) (by norm_num [U64])]
      decide
    have hrb : ring_buffer_init false false
        { element_size := 4, max_elements := 65536, buffer_null := false }
        (fun _ => 0) st.rb =
        (SUCCESS, some st.rb.index,
          { index := st.rb.index + 1,
            slot := { element_size := 4, max_elements := 65536,
                      buf := fun _ => 0, head := 0, tail := 0 } }) := by
      simp [ring_buffer_init, RING_BUFFER_MAX, hfree, hpow]
    constructor
    · simp [delay_init, hc, hrbd, hrb, SUCCESS]
    · intro _
      constructor <;> simp [delay_init, hc, hrbd, hrb, SUCCESS]

/-- C8 witness: instantiating the amended theorem at the reset-time module
state with delay 400 ms, blend 1/2 and feedback 1/2 — all in range — shows
the call succeeds and commits exactly those values. -/
theorem delay_init_range_check_witness :
    (fx_delay_state0.delay_rbd = FXDELAY ∧ fx_delay_state0.rb.index = 0 ∧
      ¬ ((1 / 2 : ℚ) ≤ 0 ∨ (1 / 2 : ℚ) ≥ 1 ∨ (1 / 2 : ℚ) ≤ 0 ∨
        (1 / 2 : ℚ) ≥ 99 / 100 ∨ (400 : ℚ) > MAX_DELAY_TIME)) ∧
    (delay_init fx_delay_state0 delay_handle0 (some 1) (some 2)
      400 (1 / 2) (1 / 2)).1 = 0 ∧
    (delay_init fx_delay_state0 delay_handle0 (some 1) (some 2)
      400 (1 / 2) (1 / 2)).2.1 =
      { delay_handle0 with src := some 1, dst := some 2, delay_ms := 400,
                           blend := 1 / 2, feedback := 1 / 2, delay_rb := true } :=
  ⟨⟨rfl, rfl, by norm_num [MAX_DELAY_TIME]⟩,
    (delay_init_range_check fx_delay_state0 delay_handle0 1 2 400 (1 / 2) (1 / 2)
      rfl rfl).2 (by norm_num [MAX_DELAY_TIME])⟩

end AudioDSP
